import Mathlib

/-!
# Verification of the Sudoku repository (sudoku.py, solver.py, test_sudoku.py)

Shallow embedding of the repository's data model and operations.

Modelling conventions:
* Python `None` cells are `Option.none`; cell values are `Nat`.
* Python exceptions are modelled with `Except Err`: `ValueError`,
  `SudokuIntegrityError`, `TypeError` (e.g. `None - 1`), `IndexError`.
* Python `set`s of positions / pending updates are modelled as
  duplicate-free lists: `add` appends when absent, `pop` takes the head
  (Python's `set.pop` removes an unspecified element; the embedding fixes
  one concrete order).
* Python list indexing `xs[i]` (which supports negative indices and raises
  `IndexError` out of range) is modelled by `pyIndex`.
* The two `while` loops of `SudokuSolver.solve` are modelled with explicit
  fuel; termination theorems show the fuel bounds suffice.
-/

/-- Errors raised by the Python code. `valueError` models `ValueError`,
`integrityError` models `SudokuIntegrityError`, `typeError` models `TypeError`
(for example `None - 1`), `indexError` models `IndexError`. -/
inductive Err where
  | valueError
  | integrityError
  | typeError
  | indexError
deriving DecidableEq

/-- A board position `(row, col)`, 1-indexed as in the source. -/
abbrev Pos := Nat × Nat

/-- A cell value. -/
abbrev Val := Nat

/-- The 81 cells of a 9x9 `Sudoku` board in row-major order
(`SquareBoard._board` for `dimension = 9`). -/
abbrev BoardCells := List (Option Val)

/-- `SquareBoard._rowmajor` for the fixed dimension 9 without the bounds
check: `(col - 1) + (row - 1) * 9` (source line 146).  All solver-internal
uses are at in-bounds positions; the user-facing write path
(`sudokuSetItem`) performs the bounds checks where the Python code does. -/
def rowmajor (row col : Nat) : Nat := (col - 1) + (row - 1) * 9

/-- Reading `self._board[self._rowmajor(row, col)]`.  A `Sudoku` board always
holds exactly 81 cells, so the `getD none` default is never used at the
in-bounds positions where the solver reads. -/
def cellGet (b : BoardCells) (row col : Nat) : Option Val :=
  (b.get? (rowmajor row col)).getD none

/-- Python truthiness of a cell: `None` and `0` are falsy. -/
def truthyCell (o : Option Val) : Bool := o.getD 0 != 0

/-- Python list indexing for a list of length `n`: non-negative indices must
be `< n`, negative indices wrap (`xs[-1]` is the last element), anything
else raises `IndexError` (modelled by `none`). -/
def pyIndex (n : Nat) (i : Int) : Option Nat :=
  if 0 ≤ i then (if i < (n : Int) then some i.toNat else none)
  else (if -i ≤ (n : Int) then some (n - (-i).toNat) else none)

/-- The index used by `self.possibilities[value - 1]`: Python evaluates
`value - 1` over `Int`, then indexes the length-9 list. -/
def vidx (v : Val) : Option Nat := pyIndex 9 ((v : Int) - 1)

/-- The truthy values of row `row`:
`frozenset(self[row, j] for j in range(1, dim+1) if self[row, j])`
(`SquareBoard.row_values`), as a list (only membership is ever used). -/
def row_values (b : BoardCells) (row : Nat) : List Val :=
  (List.range 9).filterMap (fun j =>
    match cellGet b row (j + 1) with
    | some v => if v = 0 then none else some v
    | none => none)

/-- `SquareBoard.row_values` with the bounds behaviour of the getter: the
first `self[row, j]` access bounds-checks `row` (raising `ValueError` from
`_rowmajor`); the column indices `1..9` are always in bounds. -/
def row_valuesE (b : BoardCells) (row : Nat) : Except Err (List Val) :=
  if row > 9 ∨ row < 1 then .error .valueError
  else .ok (row_values b row)

/-- The truthy values of column `col` (`SquareBoard.col_values`). -/
def col_values (b : BoardCells) (col : Nat) : List Val :=
  (List.range 9).filterMap (fun i =>
    match cellGet b (i + 1) col with
    | some v => if v = 0 then none else some v
    | none => none)

/-- `SquareBoard.col_values` with the getter's bounds behaviour. -/
def col_valuesE (b : BoardCells) (col : Nat) : Except Err (List Val) :=
  if col > 9 ∨ col < 1 then .error .valueError
  else .ok (col_values b col)

/-- `Sudoku.subgrid_positions(row, col)`: the precomputed 3x3 block that
contains `(row, col)`.  `Sudoku.__init__` stores block
`(i, j)` (with `y = i*3+1`, `x = j*3+1`) at index `i*3+j`, and the lookup
index `((col-1)//3) + 3*((row-1)//3)` selects exactly the block containing
`(row, col)` for in-bounds positions, so the positions are produced here
directly from the block formula (rows outer, columns inner, as in the
source's frozenset comprehension). -/
def subgrid_positions (row col : Nat) : List Pos :=
  let y := ((row - 1) / 3) * 3 + 1
  let x := ((col - 1) / 3) * 3 + 1
  (List.range 3).flatMap (fun a => (List.range 3).map (fun b => (y + a, x + b)))

/-- `Sudoku.subgrid_values(row, col)`: the truthy values in the subgrid
containing `(row, col)`.  For the positions reached in the code `row` and
`col` are already known in bounds (the row/column checks of `__setitem__`
run first), so no bounds error can arise here. -/
def subgrid_values (b : BoardCells) (row col : Nat) : List Val :=
  (subgrid_positions row col).filterMap (fun p =>
    match cellGet b p.1 p.2 with
    | some v => if v = 0 then none else some v
    | none => none)

/-- `Sudoku.__setitem__(position, value)` (source lines 282-294): reject a
value outside `[1, 9]` with `ValueError`; then raise `SudokuIntegrityError`
if the value already occurs among the occupied cells of the row, column or
subgrid (short-circuit order as in the source); otherwise delegate to
`SquareBoard.__setitem__`, which writes `_board[_rowmajor(row, col)]`. -/
def sudokuSetItem (b : BoardCells) (row col : Nat) (v : Val) : Except Err BoardCells :=
  if v < 1 ∨ 9 < v then .error .valueError
  else match row_valuesE b row with
    | .error e => .error e
    | .ok rv =>
      if v ∈ rv then .error .integrityError
      else match col_valuesE b col with
        | .error e => .error e
        | .ok cv =>
          if v ∈ cv then .error .integrityError
          else if v ∈ subgrid_values b row col then .error .integrityError
          else .ok (b.set (rowmajor row col) (some v))

/-- `SquareBoard.row_positions(row)`: the frozenset
`{(row, j) | j in 1..9}` precomputed in `SquareBoard.__init__`. -/
def row_positions (row : Nat) : List Pos :=
  (List.range 9).map (fun j => (row, j + 1))

/-- `SquareBoard.col_positions(col)`: the frozenset
`{(i, col) | i in 1..9}` precomputed in `SquareBoard.__init__`. -/
def col_positions (col : Nat) : List Pos :=
  (List.range 9).map (fun i => (i + 1, col))

/-- All 81 positions in the row-major order produced by
`SquareBoard.__iter__`. -/
def allPositions : List Pos :=
  (List.range 9).flatMap (fun r => (List.range 9).map (fun c => (r + 1, c + 1)))

/-- A pending update `(value, position)` as stored in `self.updates`. -/
abbrev Upd := Val × Pos

/-- The state owned by a `SudokuSolver`: the puzzle's cells, the nine
candidate-position sets `self.possibilities`, and the pending-update set
`self.updates`. -/
structure SolverSt where
  board : BoardCells
  poss : List (List Pos)
  updates : List Upd
deriving DecidableEq

/-- `SudokuSolver.__init__`: nine possibility sets, each holding every
position of the puzzle (`{pos for value, pos in self.puzzle}`), and an
empty update set. -/
def initSolver (b : BoardCells) : SolverSt :=
  { board := b, poss := List.replicate 9 allPositions, updates := [] }

/-- `self.updates.add(x)`: set insertion, modelled as append-if-absent. -/
def updAdd (u : List Upd) (x : Upd) : List Upd :=
  if x ∈ u then u else u ++ [x]

/-- Reading `self.possibilities[value - 1]` (Python list indexing,
`IndexError` when out of range). -/
def possGet (s : SolverSt) (v : Val) : Except Err (List Pos) :=
  match vidx v with
  | none => .error .indexError
  | some k =>
    match s.poss.get? k with
    | none => .error .indexError
    | some l => .ok l

/-- The common body of `SudokuSolver.clear_row`, `clear_col` and
`clear_subgrid`: `for pos in group: self.possibilities[value - 1].discard(pos)`,
i.e. remove every position of the group from the value's possibility set. -/
def clearGroup (s : SolverSt) (v : Val) (grp : List Pos) : Except Err SolverSt :=
  match vidx v with
  | none => .error .indexError
  | some k =>
    match s.poss.get? k with
    | none => .error .indexError
    | some l =>
      .ok { s with poss := s.poss.set k (l.filter (fun p => !(decide (p ∈ grp)))) }

/-- `SudokuSolver.clear_row(row, value)`. -/
def clear_row (s : SolverSt) (row : Nat) (v : Val) : Except Err SolverSt :=
  clearGroup s v (row_positions row)

/-- `SudokuSolver.clear_col(col, value)`. -/
def clear_col (s : SolverSt) (col : Nat) (v : Val) : Except Err SolverSt :=
  clearGroup s v (col_positions col)

/-- `SudokuSolver.clear_subgrid(row, col, value)`. -/
def clear_subgrid (s : SolverSt) (row col : Nat) (v : Val) : Except Err SolverSt :=
  clearGroup s v (subgrid_positions row col)

/-- `SudokuSolver.update_cell(row, col, value)` (source lines 45-52): clear
the value from the row, column and subgrid possibility sets, write the cell
through `Sudoku.__setitem__`, enqueue the update, then discard the position
from every possibility set. -/
def update_cell (s : SolverSt) (row col : Nat) (v : Val) : Except Err SolverSt :=
  match clear_row s row v with
  | .error e => .error e
  | .ok s1 =>
    match clear_col s1 col v with
    | .error e => .error e
    | .ok s2 =>
      match clear_subgrid s2 row col v with
      | .error e => .error e
      | .ok s3 =>
        match sudokuSetItem s3.board row col v with
        | .error e => .error e
        | .ok b =>
          .ok { board := b
                poss := s3.poss.map (fun ps =>
                  ps.filter (fun p => !(decide (p = (row, col)))))
                updates := updAdd s3.updates (v, (row, col)) }

/-- The common body of `SudokuSolver.check_row`, `check_col` and
`check_subgrid`: intersect the group with `self.possibilities[value - 1]`;
when the intersection is a singleton, commit the value at that position via
`update_cell`. -/
def checkGroup (s : SolverSt) (grp : List Pos) (v : Val) : Except Err SolverSt :=
  match possGet s v with
  | .error e => .error e
  | .ok l =>
    match grp.filter (fun p => decide (p ∈ l)) with
    | [p] => update_cell s p.1 p.2 v
    | _ => .ok s

/-- `SudokuSolver.check_row(row, value)`. -/
def check_row (s : SolverSt) (row : Nat) (v : Val) : Except Err SolverSt :=
  checkGroup s (row_positions row) v

/-- `SudokuSolver.check_col(col, value)`. -/
def check_col (s : SolverSt) (col : Nat) (v : Val) : Except Err SolverSt :=
  checkGroup s (col_positions col) v

/-- `SudokuSolver.check_subgrid(row, col, value)`. -/
def check_subgrid (s : SolverSt) (row col : Nat) (v : Val) : Except Err SolverSt :=
  checkGroup s (subgrid_positions row col) v

/-- `[value for value, pos in enumerate(self.possibilities, start=1)
if (row, col) in pos]` from `SudokuSolver.check_cell`. -/
def possible_values (s : SolverSt) (row col : Nat) : List Val :=
  s.poss.enum.filterMap (fun ip =>
    if (row, col) ∈ ip.2 then some (ip.1 + 1) else none)

/-- `SudokuSolver.check_cell(row, col)` (source lines 54-63): with no
possible values, raise `SudokuIntegrityError` only when the cell is (still)
falsy; with exactly one possible value, commit it via `update_cell`;
otherwise do nothing. -/
def check_cell (s : SolverSt) (row col : Nat) : Except Err SolverSt :=
  match possible_values s row col with
  | [] =>
    if truthyCell (cellGet s.board row col) then .ok s else .error .integrityError
  | [v] => update_cell s row col v
  | _ => .ok s

/-- One step of the initial seeding loop of `solve` for one cell: for a
truthy cell value, clear its row, column and subgrid possibility sets and
enqueue the update. -/
def seedCell (s : SolverSt) (p : Pos) : Except Err SolverSt :=
  match cellGet s.board p.1 p.2 with
  | none => .ok s
  | some v =>
    if v = 0 then .ok s
    else match clear_row s p.1 v with
      | .error e => .error e
      | .ok s1 =>
        match clear_col s1 p.2 v with
        | .error e => .error e
        | .ok s2 =>
          match clear_subgrid s2 p.1 p.2 v with
          | .error e => .error e
          | .ok s3 => .ok { s3 with updates := updAdd s3.updates (v, p) }

/-- The initial loop of `solve`, over all cells in iteration order. -/
def seedGo : List Pos → SolverSt → Except Err SolverSt
  | [], s => .ok s
  | p :: ps, s =>
    match seedCell s p with
    | .error e => .error e
    | .ok s' => seedGo ps s'

/-- The row/column re-check loop of the drain phase:
`for i in range(1, dim + 1): self.check_row(i, value); self.check_col(i, value)`.
Note that `value` here is the *stale* variable from the preceding
full-board iteration, not the popped update's value. -/
def rcChecksGo : Val → List Nat → SolverSt → Except Err SolverSt
  | _, [], s => .ok s
  | v, i :: is, s =>
    match check_row s i v with
    | .error e => .error e
    | .ok s1 =>
      match check_col s1 i v with
      | .error e => .error e
      | .ok s2 => rcChecksGo v is s2

/-- The subgrid re-check loop of the drain phase:
`for i in range(2, 8, 3): self.check_subgrid(row, i, value);
self.check_subgrid(i, col, value)` with `range(2, 8, 3) = [2, 5]`. -/
def sgChecksGo : Val → Nat → Nat → List Nat → SolverSt → Except Err SolverSt
  | _, _, _, [], s => .ok s
  | v, row, col, i :: is, s =>
    match check_subgrid s row i v with
    | .error e => .error e
    | .ok s1 =>
      match check_subgrid s1 i col v with
      | .error e => .error e
      | .ok s2 => sgChecksGo v row col is s2

/-- The checks performed after popping one update `(val, (row, col))`:
the code re-checks all rows and columns and the four subgrids containing
`(row, 2)`, `(2, col)`, `(row, 5)`, `(5, col)` — all for the stale `value`.
When `value` is `None` (the last cell read was empty), Python raises
`TypeError` at `self.possibilities[value - 1]` in the first `check_row`
call, before any state mutation. -/
def checksAfterPop (s : SolverSt) (row col : Nat) (stale : Option Val) : Except Err SolverSt :=
  match stale with
  | none => .error .typeError
  | some v =>
    match rcChecksGo v [1, 2, 3, 4, 5, 6, 7, 8, 9] s with
    | .error e => .error e
    | .ok s1 => sgChecksGo v row col [2, 5] s1

/-- The inner `while self.updates:` loop of `solve`, with fuel.  `none`
means the fuel ran out (shown impossible below for fuel exceeding the
measure); a pop binds `val` but never uses it (the source's bug). -/
def drainF (stale : Option Val) : Nat → SolverSt → Option (Except Err SolverSt)
  | 0, s => if s.updates.isEmpty then some (.ok s) else none
  | n + 1, s =>
    match s.updates with
    | [] => some (.ok s)
    | (_, (row, col)) :: rest =>
      match checksAfterPop { s with updates := rest } row col stale with
      | .error e => some (.error e)
      | .ok s' => drainF stale n s'

/-- The naked-single sweep `for value, (row, col) in self.puzzle:
if not value: self.check_cell(row, col)`.  The cells are read from the
*current* board as the generator advances; the `value` variable read at the
last position is returned, because it is the stale value the next drain
phase will use. -/
def sweepGo : List Pos → SolverSt → Option Val → Except Err (SolverSt × Option Val)
  | [], s, last => .ok (s, last)
  | p :: ps, s, _ =>
    let v := cellGet s.board p.1 p.2
    if truthyCell v then sweepGo ps s v
    else
      match check_cell s p.1 p.2 with
      | .error e => .error e
      | .ok s' => sweepGo ps s' v

/-- Total length of the possibility sets. -/
def sumLens (ls : List (List Pos)) : Nat := (ls.map List.length).sum

/-- Size of the possibility state. -/
def totalPoss (s : SolverSt) : Nat := sumLens s.poss

/-- The measure for the inner drain loop: total possibility size plus the
number of pending updates; it strictly decreases with every pop. -/
def stMeasure (s : SolverSt) : Nat := totalPoss s + s.updates.length

/-- The outer `while self.updates:` loop of `solve`, with fuel: drain the
update set (inner fuel computed from the measure, which always suffices),
then run the naked-single sweep, whose last read cell value becomes the
stale `value` of the next drain. -/
def solveLoopF : Nat → Option Val → SolverSt → Option (Except Err SolverSt)
  | 0, _, s => if s.updates.isEmpty then some (.ok s) else none
  | n + 1, stale, s =>
    if s.updates.isEmpty then some (.ok s)
    else
      match drainF stale (stMeasure s + 1) s with
      | none => none
      | some (.error e) => some (.error e)
      | some (.ok s1) =>
        match sweepGo allPositions s1 none with
        | .error e => some (.error e)
        | .ok (s2, last) => solveLoopF n last s2

/-- `SudokuSolver.solve()` on a puzzle with cells `b`: seed the possibility
sets and the update set from the givens, then run the propagation loop.
After the seeding loop the Python variable `value` holds the value read at
the last iterated position `(9, 9)`, which is the stale value used by the
first drain phase.  The outer fuel `totalPoss + 1` is proved sufficient
below. -/
def solveRun (b : BoardCells) : Option (Except Err SolverSt) :=
  match seedGo allPositions (initSolver b) with
  | .error e => some (.error e)
  | .ok s1 => solveLoopF (totalPoss s1 + 1) (cellGet s1.board 9 9) s1

/-- The empty 81-cell board created by `Sudoku.__init__`
(via `SquareBoard.__init__(9)`). -/
def emptyBoard : BoardCells := List.replicate 81 none

/-- Apply a sequence of `sudoku[row, col] = value` assignments to a board,
stopping at the first exception, as the statements of `test_sudoku.py` do. -/
def applyGivens : List (Nat × Nat × Val) → BoardCells → Except Err BoardCells
  | [], b => .ok b
  | g :: gs, b =>
    match sudokuSetItem b g.1 g.2.1 g.2.2 with
    | .error e => .error e
    | .ok b' => applyGivens gs b'

/-- The 35 givens of `easy_sudoku` in the assignment order of
`test_sudoku.py` (lines 7-41). -/
def easyGivens : List (Nat × Nat × Val) :=
  [(1, 1, 2), (1, 2, 6), (2, 2, 8), (2, 3, 9), (3, 2, 7), (3, 3, 1),
   (2, 5, 6), (3, 6, 8), (3, 7, 6), (3, 8, 9), (3, 9, 4), (4, 3, 6),
   (4, 5, 9), (4, 6, 4), (4, 7, 8), (4, 9, 5), (5, 3, 4), (5, 4, 8),
   (5, 6, 7), (5, 7, 9), (6, 1, 1), (6, 3, 8), (6, 4, 6), (6, 5, 3),
   (6, 7, 4), (7, 1, 9), (7, 2, 5), (7, 3, 3), (7, 7, 1), (7, 8, 4),
   (8, 5, 1), (8, 7, 5), (8, 8, 7), (9, 8, 8), (9, 9, 9)]

/-- Every row, column and subgrid position group of the 9x9 board. -/
def allGroups : List (List Pos) :=
  ((List.range 9).map (fun i => row_positions (i + 1))) ++
  ((List.range 9).map (fun i => col_positions (i + 1))) ++
  ((List.range 3).flatMap (fun i => (List.range 3).map (fun j =>
    subgrid_positions (i * 3 + 1) (j * 3 + 1))))

/-- A fully and correctly solved board: every cell filled and every row,
column and subgrid containing each value `1..9` exactly once. -/
def isSolvedBoard (b : BoardCells) : Bool :=
  (allPositions.all (fun p => truthyCell (cellGet b p.1 p.2))) &&
  (allGroups.all (fun g =>
    (List.range 9).all (fun v =>
      (g.filter (fun p => cellGet b p.1 p.2 == some (v + 1))).length == 1)))

/-- Build `easy_sudoku` and run `solve()` on it, then report: did every
assignment and the solve succeed, and is the final board fully solved? -/
def easySolveChecks : Bool :=
  match applyGivens easyGivens emptyBoard with
  | .error _ => false
  | .ok b =>
    match solveRun b with
    | some (.ok s) => isSolvedBoard s.board
    | _ => false

/-! ## The generic `SquareBoard` class and the `Sudoku` constructor -/

/-- `SquareBoard`: a square grid of optional values with a stored
`dimension` and a flat row-major cell list `_board`. -/
structure SquareBoard (α : Type) where
  dimension : Nat
  _board : List (Option α)
deriving DecidableEq

/-- `SquareBoard.__init__(dimension)` (source lines 85-95): store the
dimension and create `dimension ** 2` empty cells.  There is no validation
of the dimension whatsoever — any natural number is accepted. -/
def SquareBoard.new (α : Type) (dimension : Nat) : SquareBoard α :=
  { dimension := dimension, _board := List.replicate (dimension * dimension) none }

/-- `SquareBoard.from_list(lst)` (source lines 112-120): compute
`dim = int(math.sqrt(len(lst)))` (exact for the list lengths in scope,
modelled by `Nat.sqrt`), raise `ValueError` unless `dim * dim == len(lst)`,
then create a board and *replace* its `_board` with `lst` directly —
no per-value validation of any kind is performed. -/
def SquareBoard.from_list (lst : List (Option α)) : Except Err (SquareBoard α) :=
  let dim := Nat.sqrt lst.length
  if dim * dim ≠ lst.length then .error .valueError
  else .ok { dimension := dim, _board := lst }

/-- `Sudoku.__init__` (source lines 252-262): takes *no* dimension
parameter, always calls `SquareBoard.__init__(9)`. -/
def Sudoku.new : SquareBoard Val := SquareBoard.new Val 9

/-- The nine frozen 3x3 subgrid position groups built by `Sudoku.__init__`:
for `i` and `j` in `range(3)`, the block with origin `y = i*3+1`,
`x = j*3+1`, rows outer and columns inner. -/
def Sudoku.subgrids : List (List Pos) :=
  (List.range 3).flatMap (fun i => (List.range 3).map (fun j =>
    (List.range 3).flatMap (fun a => (List.range 3).map (fun b =>
      (i * 3 + 1 + a, j * 3 + 1 + b)))))

/-- `Sudoku.from_list(lst)`: `from_list` is inherited from `SquareBoard`
and executes `new = cls(dim)` with `cls = Sudoku`; `Sudoku.__init__` takes
no dimension argument, so this call raises `TypeError` for every list
whose length passes the square-length check (and `ValueError` otherwise).
Construction therefore never succeeds, for any list. -/
def Sudoku.from_list (lst : List (Option Val)) : Except Err (SquareBoard Val) :=
  let dim := Nat.sqrt lst.length
  if dim * dim ≠ lst.length then .error .valueError
  else .error .typeError

/-! ## Concrete boards and states used in the theorems -/

/-- The possibility set of value `v` in a solver state, as read by
`check_cell`'s enumeration (empty when the index is invalid). -/
def possAt (s : SolverSt) (v : Val) : List Pos :=
  ((possGet s v).toOption).getD []

/-- A `Sudoku` with the single given `(1, 1) = 2` and every other cell —
in particular `(9, 9)` — empty. -/
def singleGivenBoard : BoardCells := emptyBoard.set (rowmajor 1 1) (some 2)

/-- The solver state produced by the seeding loop of `solve()` on
`singleGivenBoard`. -/
def seededSingle : SolverSt :=
  match seedGo allPositions (initSolver singleGivenBoard) with
  | .ok s => s
  | .error _ => initSolver singleGivenBoard

/-- A solver state in which the pending update `(1, (1, 1))` is about to be
popped while the stale `value` variable holds `9`: value 1 has the
singleton candidate set `{(1, 1)}` (a hidden single in row 1), and value 9
has no candidates at all. -/
def c2State : SolverSt :=
  { board := emptyBoard
    poss := [[(1, 1)], [], [], [], [], [], [], [], []]
    updates := [(1, (1, 1))] }

/-- An 81-cell row-major list whose first row starts `5, 5, ...`: a
duplicate inside row 1 (and inside the first subgrid). -/
def dupList : List (Option Val) := some 5 :: some 5 :: List.replicate 79 none

/-- `SquareBoard.__iter__` restricted to the cell values: the row-major
sequence `self[row, col]` for `row, col in 1..dimension`, each read through
`_board[_rowmajor(row, col)]` (`(col-1) + (row-1)*dimension`, which for
0-based `r`, `c` is `c + r*dimension`). -/
def SquareBoard.iterList (b : SquareBoard α) : List (Option α) :=
  (List.range b.dimension).flatMap (fun r => (List.range b.dimension).map (fun c =>
    (b._board.get? (c + r * b.dimension)).getD none))

/-- A solver state whose nine possibility sets are all empty, over an
entirely empty board: every empty cell has zero possible values. -/
def emptyPossState : SolverSt :=
  { board := emptyBoard, poss := List.replicate 9 [], updates := [] }

/-- A length-4 row-major list (dimension 2) used to instantiate the
`from_list` theorems. -/
def rtList : List (Option Val) := [some 1, none, none, some 2]

/-- A second length-4 row-major list for the round-trip witness. -/
def rtList2 : List (Option Val) := [some 3, some 4, none, none]

/-- Progress made by one solver operation: the possibility total never
grows, the drain measure never grows, and the state either is untouched or
strictly shrank the possibility total.  Every `check_*`/`check_cell` call
that returns normally satisfies this. -/
def Prog (s s' : SolverSt) : Prop :=
  totalPoss s' ≤ totalPoss s ∧ stMeasure s' ≤ stMeasure s ∧
    (s' = s ∨ totalPoss s' < totalPoss s)

/-! ## Theorems -/

/-- C2 (code bug): the drain phase does *not* re-check groups for the
popped value.  The source pops `val, (row, col) = self.updates.pop()` but
then calls every `check_row`/`check_col`/`check_subgrid` with the distinct,
stale variable `value`, last bound by the preceding full-board `for` loop.
First conjunct: on a puzzle whose cell `(9, 9)` is empty (here a single
given `(1, 1) = 2`), the stale `value` is `None` and `solve()` raises
`TypeError` at `self.possibilities[value - 1]` instead of re-checking for
the popped value `2`.  Second conjunct: in a state whose pending update is
`(1, (1, 1))` while the stale `value` is `9`, the popped value `1` has a
singleton intersection `{(1, 1)}` with row 1, yet draining commits
nothing — the board is unchanged and no new update is enqueued. -/
theorem drain_checks_stale_value :
    solveRun singleGivenBoard = some (.error .typeError) ∧
    drainF (some 9) 2 c2State =
      some (.ok { board := emptyBoard, poss := c2State.poss, updates := [] }) :=
  ⟨rfl, rfl⟩

/-- C5: with zero possible values at `(row, col)`, `check_cell` raises
`SudokuIntegrityError` exactly when the cell is genuinely unfilled (falsy),
and performs no mutation at all in either case: it returns the state
untouched when the cell is filled, and raises — modelled by the mutation-free
`.error` — when it is not. -/
theorem check_cell_zero_candidates (s : SolverSt) (row col : Nat)
    (h : possible_values s row col = []) :
    check_cell s row col =
      if truthyCell (cellGet s.board row col) then .ok s
      else .error .integrityError := by
  unfold check_cell
  rw [h]

/-- Witness for `check_cell_zero_candidates`: in `emptyPossState` the empty
cell `(1, 1)` has no possible values and `check_cell` raises. -/
theorem check_cell_zero_candidates_witness :
    check_cell emptyPossState 1 1 = .error .integrityError :=
  (check_cell_zero_candidates emptyPossState 1 1 (by rfl)).trans (by rfl)

/-- C9 counterexample: constructing a board with dimension 7 does *not*
fail: `SquareBoard.__init__` validates nothing, so the claimed
construction-time rejection of non-multiple-of-3 dimensions does not exist.
The constructed object is a normal 7x7 board with 49 empty cells. -/
theorem dimension7_board_constructs :
    (SquareBoard.new Val 7).dimension = 7 ∧
    (SquareBoard.new Val 7)._board.length = 49 :=
  ⟨rfl, rfl⟩

/-- C9 amended: `SquareBoard` accepts every dimension without validation —
construction always succeeds and yields a `d` x `d` board; no
multiple-of-3 (or any other) dimension check exists.  (Only the `Sudoku`
subclass is dimension-fixed, to 9, by taking no dimension parameter.) -/
theorem square_board_no_dimension_validation (α : Type) (d : Nat) :
    (SquareBoard.new α d).dimension = d ∧
    (SquareBoard.new α d)._board.length = d * d :=
  ⟨rfl, List.length_replicate _ _⟩

/-- C10: every `Sudoku` has dimension exactly 9: the constructor takes no
dimension parameter and builds a 9x9 board (81 cells) with nine fixed 3x3
subgrid groups of 9 positions each, one containing each board position;
and the only other construction path, `Sudoku.from_list`, fails for every
input list (its `cls(dim)` call cannot match `Sudoku.__init__`), so no
Sudoku of another size can be created. -/
theorem sudoku_dimension_always_nine :
    Sudoku.new.dimension = 9 ∧
    Sudoku.new._board.length = 81 ∧
    Sudoku.subgrids.length = 9 ∧
    Sudoku.subgrids.all (fun g => g.length == 9) = true ∧
    allPositions.all
      (fun p => decide (subgrid_positions p.1 p.2 ∈ Sudoku.subgrids)) = true ∧
    ∀ lst : List (Option Val), (Sudoku.from_list lst).toOption.isSome = false := by
  refine ⟨rfl, rfl, rfl, by decide, by decide, fun lst => ?_⟩
  simp only [Sudoku.from_list]
  split <;> rfl

/-- C4: writing a value of `[1, 9]` that already occurs among the occupied
cells of the target position's row, column or subgrid raises
`SudokuIntegrityError`, for every board state — i.e. regardless of the
order in which the earlier placements were made.  The raise happens before
the write, so the board is left entirely unchanged (in the embedding the
`.error` result carries no mutated board, mirroring that
`Sudoku.__setitem__` mutates nothing on this path). -/
theorem setitem_duplicate_integrity (b : BoardCells) (row col v : Nat)
    (hr1 : 1 ≤ row) (hr9 : row ≤ 9) (hc1 : 1 ≤ col) (hc9 : col ≤ 9)
    (hv1 : 1 ≤ v) (hv9 : v ≤ 9)
    (hdup : v ∈ row_values b row ∨ v ∈ col_values b col ∨
            v ∈ subgrid_values b row col) :
    sudokuSetItem b row col v = .error .integrityError := by
  simp only [sudokuSetItem, row_valuesE, col_valuesE,
    if_neg (show ¬(v < 1 ∨ 9 < v) by omega),
    if_neg (show ¬(row > 9 ∨ row < 1) by omega),
    if_neg (show ¬(col > 9 ∨ col < 1) by omega)]
  rcases hdup with h1 | h2 | h3
  · rw [if_pos h1]
  · by_cases hm : v ∈ row_values b row
    · rw [if_pos hm]
    · rw [if_neg hm, if_pos h2]
  · by_cases hm : v ∈ row_values b row
    · rw [if_pos hm]
    · rw [if_neg hm]
      by_cases hm2 : v ∈ col_values b col
      · rw [if_pos hm2]
      · rw [if_neg hm2, if_pos h3]

/-- Witness for `setitem_duplicate_integrity`: with `5` already at
`(1, 1)`, writing `5` at `(1, 2)` raises. -/
theorem setitem_duplicate_integrity_witness :
    sudokuSetItem (emptyBoard.set (rowmajor 1 1) (some 5)) 1 2 5 =
      .error .integrityError :=
  setitem_duplicate_integrity _ 1 2 5 (by omega) (by omega) (by omega)
    (by omega) (by omega) (by omega) (Or.inl (by decide))

/-- C7 amended: `SquareBoard.from_list` performs no per-given validation:
whenever the list length is a perfect square it succeeds and installs the
list *as is* (duplicates and out-of-range values included), unlike the
equivalent sequence of individual placement calls; and `Sudoku.from_list`
never succeeds at all, because `from_list`'s `cls(dim)` call cannot match
the parameterless `Sudoku.__init__`. -/
theorem from_list_stores_list_unvalidated :
    (∀ (α : Type) (lst : List (Option α)),
        Nat.sqrt lst.length * Nat.sqrt lst.length = lst.length →
        SquareBoard.from_list lst =
          .ok { dimension := Nat.sqrt lst.length, _board := lst })
    ∧ ∀ lst : List (Option Val), (Sudoku.from_list lst).toOption.isSome = false := by
  constructor
  · intro α lst h
    simp only [SquareBoard.from_list]
    rw [if_neg (by omega)]
  · intro lst
    simp only [Sudoku.from_list]
    split <;> rfl

/-- Witness for `from_list_stores_list_unvalidated`: a length-4 list is
installed unchanged as a dimension-2 board. -/
theorem from_list_stores_list_unvalidated_witness :
    SquareBoard.from_list rtList =
      .ok { dimension := Nat.sqrt rtList.length, _board := rtList } :=
  from_list_stores_list_unvalidated.1 Val rtList
    (by rw [show rtList.length = 2 * 2 from rfl, Nat.sqrt_eq])

/-- C7 counterexample: `SquareBoard.from_list` accepts a list with a
duplicated `5` in row 1 (and in the first subgrid) without any error,
whereas the equivalent sequence of individual placements
`board[1,1] = 5; board[1,2] = 5` raises `SudokuIntegrityError` on the
second write.  `from_list` therefore does not validate givens at write
time. -/
theorem from_list_skips_validation :
    (SquareBoard.from_list dupList).toOption.isSome = true ∧
    applyGivens [(1, 1, 5), (1, 2, 5)] emptyBoard = .error .integrityError := by
  constructor
  · have hsq : Nat.sqrt dupList.length = 9 := by
      rw [show dupList.length = 9 * 9 from rfl, Nat.sqrt_eq]
    simp only [SquareBoard.from_list, hsq, show dupList.length = 81 from rfl]
    rw [if_neg (by norm_num)]
    rfl
  · rfl

/-- C3 counterexample: `singleGivenBoard` has the filled given
`(1, 1) = 2`, the seeding phase succeeds, and yet afterwards `(1, 1)` is
*still* a member of the candidate set of value `1`: seeding removes a
given's position only from the candidate set of its own value (and of the
other values occurring in its groups), never from every value's set. -/
theorem seeded_given_still_candidate :
    truthyCell (cellGet singleGivenBoard 1 1) = true ∧
    seedGo allPositions (initSolver singleGivenBoard) = .ok seededSingle ∧
    ((1, 1) : Pos) ∈ possAt seededSingle 1 :=
  ⟨rfl, rfl, by decide⟩

/-- Inversion of a successful `clearGroup`. -/
theorem clearGroup_ok_inv {s s' : SolverSt} {v : Val} {g : List Pos}
    (h : clearGroup s v g = .ok s') :
    ∃ k l, vidx v = some k ∧ s.poss.get? k = some l ∧
      s' = { s with poss := s.poss.set k (l.filter (fun p => !(decide (p ∈ g)))) } := by
  unfold clearGroup at h
  split at h
  · cases h
  next k hk =>
    split at h
    · cases h
    next l hl =>
      cases h
      exact ⟨k, l, hk, hl, rfl⟩

/-- `clearGroup` never touches the board or the update set. -/
theorem clearGroup_frame {s s' : SolverSt} {v : Val} {g : List Pos}
    (h : clearGroup s v g = .ok s') :
    s'.board = s.board ∧ s'.updates = s.updates := by
  obtain ⟨k, l, _, _, rfl⟩ := clearGroup_ok_inv h
  exact ⟨rfl, rfl⟩

/-- `possAt` through a valid index is the stored list. -/
theorem possAt_eq {s : SolverSt} {w : Val} {k : Nat} (hw : vidx w = some k) :
    possAt s w = (s.poss.get? k).getD [] := by
  unfold possAt possGet
  simp only [hw]
  cases h : s.poss.get? k <;> simp [h, Except.toOption]

/-- `possAt` at an invalid index is empty. -/
theorem possAt_invalid {s : SolverSt} {w : Val} (hw : vidx w = none) :
    possAt s w = [] := by
  unfold possAt possGet
  simp [hw, Except.toOption]

/-- `clearGroup` only shrinks every possibility set. -/
theorem possAt_clearGroup_subset {s s' : SolverSt} {v w : Val} {g : List Pos}
    (h : clearGroup s v g = .ok s') : possAt s' w ⊆ possAt s w := by
  obtain ⟨k, l, hk, hl, heq⟩ := clearGroup_ok_inv h
  rw [heq]
  cases hw : vidx w with
  | none =>
    rw [possAt_invalid hw]
    exact fun x hx => absurd hx (List.not_mem_nil x)
  | some k' =>
    rw [possAt_eq hw, possAt_eq hw]
    by_cases hkk : k = k'
    · subst hkk
      rw [List.get?_set_eq, hl]
      exact (List.filter_sublist l).subset
    · rw [List.get?_set_ne _ _ hkk]
      exact fun x hx => hx

/-- `clearGroup` removes every position of the group from the cleared
value's possibility set. -/
theorem possAt_clearGroup_removed {s s' : SolverSt} {v : Val} {g : List Pos} {p : Pos}
    (h : clearGroup s v g = .ok s') (hp : p ∈ g) : p ∉ possAt s' v := by
  obtain ⟨k, l, hk, hl, heq⟩ := clearGroup_ok_inv h
  rw [heq, possAt_eq hk]
  rw [List.get?_set_eq, hl]
  intro hmem
  have hdec := (List.mem_filter.mp hmem).2
  simp only [Bool.not_eq_true', decide_eq_false_iff_not] at hdec
  exact hdec hp

/-- Inversion of a successful `seedCell`: either the cell was falsy and the
state is untouched, or the three group clears ran for the cell's (nonzero)
value and the update was enqueued. -/
theorem seedCell_ok_inv {s s' : SolverSt} {p : Pos} (h : seedCell s p = .ok s') :
    (truthyCell (cellGet s.board p.1 p.2) = false ∧ s' = s) ∨
    ∃ v s1 s2 s3, cellGet s.board p.1 p.2 = some v ∧ v ≠ 0 ∧
      clear_row s p.1 v = .ok s1 ∧ clear_col s1 p.2 v = .ok s2 ∧
      clear_subgrid s2 p.1 p.2 v = .ok s3 ∧
      s' = { s3 with updates := updAdd s3.updates (v, p) } := by
  unfold seedCell at h
  split at h
  next hv =>
    cases h
    exact Or.inl ⟨by rw [hv]; rfl, rfl⟩
  next v hv =>
    split at h
    next hzero =>
      cases h
      exact Or.inl ⟨by rw [hv, hzero]; rfl, rfl⟩
    next hzero =>
      split at h
      · cases h
      next s1 h1 =>
        split at h
        · cases h
        next s2 h2 =>
          split at h
          · cases h
          next s3 h3 =>
            cases h
            exact Or.inr ⟨v, s1, s2, s3, hv, hzero, h1, h2, h3, rfl⟩

/-- `seedCell` never touches the board. -/
theorem seedCell_board {s s' : SolverSt} {p : Pos} (h : seedCell s p = .ok s') :
    s'.board = s.board := by
  rcases seedCell_ok_inv h with ⟨-, heq⟩ | ⟨v, s1, s2, s3, -, -, h1, h2, h3, heq⟩
  · rw [heq]
  · rw [heq]
    unfold clear_row at h1
    unfold clear_col at h2
    unfold clear_subgrid at h3
    have e1 := (clearGroup_frame h1).1
    have e2 := (clearGroup_frame h2).1
    have e3 := (clearGroup_frame h3).1
    show s3.board = s.board
    rw [e3, e2, e1]

/-- `seedCell` only shrinks every possibility set. -/
theorem seedCell_subset {s s' : SolverSt} {p : Pos} (h : seedCell s p = .ok s')
    (w : Val) : possAt s' w ⊆ possAt s w := by
  rcases seedCell_ok_inv h with ⟨-, heq⟩ | ⟨v, s1, s2, s3, -, -, h1, h2, h3, heq⟩
  · rw [heq]
    exact fun x hx => hx
  · rw [heq]
    unfold clear_row at h1
    unfold clear_col at h2
    unfold clear_subgrid at h3
    intro x hx
    have hx3 : x ∈ possAt s3 w := hx
    exact @possAt_clearGroup_subset s s1 v w _ h1 _
      (@possAt_clearGroup_subset s1 s2 v w _ h2 _
        (@possAt_clearGroup_subset s2 s3 v w _ h3 _ hx3))

/-- Seeding a truthy cell removes its position from the possibility set of
its own value (via `clear_row`). -/
theorem seedCell_removes {s s' : SolverSt} {r c : Nat} {v : Val}
    (h : seedCell s (r, c) = .ok s')
    (hcell : cellGet s.board r c = some v) (hv0 : v ≠ 0)
    (hrow : ((r, c) : Pos) ∈ row_positions r) :
    ((r, c) : Pos) ∉ possAt s' v := by
  rcases seedCell_ok_inv h with ⟨hf, -⟩ | ⟨v', s1, s2, s3, hv, hz, h1, h2, h3, heq⟩
  · dsimp only at hf
    rw [hcell] at hf
    simp [truthyCell] at hf
    exact absurd hf hv0
  · dsimp only at hv h1 h2 h3
    rw [hcell] at hv
    have hvv : v' = v := (Option.some_inj.mp hv).symm
    rw [hvv] at h1 h2 h3
    unfold clear_row at h1
    unfold clear_col at h2
    unfold clear_subgrid at h3
    rw [heq]
    intro hin
    have hin3 : ((r, c) : Pos) ∈ possAt s3 v := hin
    exact possAt_clearGroup_removed h1 hrow
      (@possAt_clearGroup_subset s1 s2 v v _ h2 _
        (@possAt_clearGroup_subset s2 s3 v v _ h3 _ hin3))

/-- The seeding loop never touches the board. -/
theorem seedGo_board : ∀ {ps : List Pos} {s s' : SolverSt},
    seedGo ps s = .ok s' → s'.board = s.board := by
  intro ps
  induction ps with
  | nil =>
    intro s s' h
    cases h
    rfl
  | cons p ps ih =>
    intro s s' h
    unfold seedGo at h
    split at h
    · cases h
    next s1 hstep => exact (ih h).trans (seedCell_board hstep)

/-- The seeding loop only shrinks every possibility set. -/
theorem seedGo_subset : ∀ {ps : List Pos} {s s' : SolverSt},
    seedGo ps s = .ok s' → ∀ w, possAt s' w ⊆ possAt s w := by
  intro ps
  induction ps with
  | nil =>
    intro s s' h w
    cases h
    exact fun x hx => hx
  | cons p ps ih =>
    intro s s' h w
    unfold seedGo at h
    split at h
    · cases h
    next s1 hstep => exact fun x hx => seedCell_subset hstep w (ih h w hx)

/-- After the seeding loop visits a truthy cell, that cell's position is no
longer in the possibility set of the value it holds. -/
theorem seedGo_removes {r c : Nat} {v : Val} : ∀ {ps : List Pos} {s s' : SolverSt},
    seedGo ps s = .ok s' → ((r, c) : Pos) ∈ ps →
    cellGet s.board r c = some v → v ≠ 0 → ((r, c) : Pos) ∈ row_positions r →
    ((r, c) : Pos) ∉ possAt s' v := by
  intro ps
  induction ps with
  | nil =>
    intro s s' _ hmem
    cases hmem
  | cons p ps ih =>
    intro s s' h hmem hcell hv0 hrow
    unfold seedGo at h
    split at h
    · cases h
    next s1 hstep =>
      rcases List.mem_cons.mp hmem with heq | hmem'
      · intro hin
        exact seedCell_removes (heq ▸ hstep) hcell hv0 hrow (seedGo_subset h v hin)
      · exact ih h hmem' ((seedCell_board hstep).symm ▸ hcell) hv0 hrow

/-- Membership in a row's own position group. -/
theorem mem_row_positions_self {r c : Nat} (hc1 : 1 ≤ c) (hc9 : c ≤ 9) :
    ((r, c) : Pos) ∈ row_positions r := by
  unfold row_positions
  rw [List.mem_map]
  exact ⟨c - 1, by rw [List.mem_range]; omega, by simp; omega⟩

/-- Positions of the board have both coordinates in `[1, 9]`. -/
theorem mem_allPositions_bounds {p : Pos} (h : p ∈ allPositions) :
    1 ≤ p.1 ∧ p.1 ≤ 9 ∧ 1 ≤ p.2 ∧ p.2 ≤ 9 := by
  unfold allPositions at h
  rw [List.mem_flatMap] at h
  obtain ⟨r, hr, h⟩ := h
  rw [List.mem_range] at hr
  rw [List.mem_map] at h
  obtain ⟨c, hc, h⟩ := h
  rw [List.mem_range] at hc
  cases h
  exact ⟨by omega, by omega, by omega, by omega⟩

/-- C3 amended: after the seeding phase every filled position is absent
from the candidate set of the value *it holds* — but not, as the original
claim states, from every value's candidate set
(`seeded_given_still_candidate` refutes that) — and every cell committed
during solving via `update_cell` is removed from the candidate set of
*every* value. -/
theorem filled_positions_candidate_exclusion :
    (∀ (b : BoardCells) (s : SolverSt) (r c : Nat) (v : Val),
        seedGo allPositions (initSolver b) = .ok s →
        ((r, c) : Pos) ∈ allPositions → cellGet b r c = some v → v ≠ 0 →
        ((r, c) : Pos) ∉ possAt s v)
    ∧ ∀ (s s' : SolverSt) (r c : Nat) (v w : Val),
        update_cell s r c v = .ok s' → ((r, c) : Pos) ∉ possAt s' w := by
  constructor
  · intro b s r c v h hmem hcell hv0
    have hb := mem_allPositions_bounds hmem
    exact seedGo_removes h hmem hcell hv0 (mem_row_positions_self hb.2.2.1 hb.2.2.2)
  · intro s s' r c v w h
    unfold update_cell at h
    split at h
    · cases h
    next s1 h1 =>
      split at h
      · cases h
      next s2 h2 =>
        split at h
        · cases h
        next s3 h3 =>
          split at h
          · cases h
          next b hb =>
            cases h
            cases hw : vidx w with
            | none =>
              rw [possAt_invalid hw]
              exact List.not_mem_nil _
            | some k =>
              rw [possAt_eq hw]
              show ((r, c) : Pos) ∉ ((s3.poss.map (fun ps =>
                ps.filter (fun p => !(decide (p = (r, c)))))).get? k).getD []
              rw [List.get?_map]
              cases ht : s3.poss.get? k with
              | none => simp
              | some t0 =>
                simp only [Option.map_some', Option.getD_some]
                intro hin
                have hdec := (List.mem_filter.mp hin).2
                simp at hdec

/-- Witness for `filled_positions_candidate_exclusion`: the seeded given
`(1, 1) = 2` of `singleGivenBoard` is absent from value 2's candidate
set. -/
theorem filled_positions_candidate_exclusion_witness :
    ((1, 1) : Pos) ∉ possAt seededSingle 2 :=
  filled_positions_candidate_exclusion.1 singleGivenBoard seededSingle 1 1 2 rfl
    (by decide) rfl (by decide)

/-- One row of the row-major readout is a `take` of the flat list. -/
theorem readRowPrefix (α : Type) : ∀ (n : Nat) (l : List (Option α)), n ≤ l.length →
    (List.range n).map (fun c => (l.get? c).getD none) = l.take n := by
  intro n
  induction n with
  | zero =>
    intro l _
    simp
  | succ n ih =>
    intro l h
    have hn : n < l.length := by omega
    rw [List.range_succ, List.map_append, ih l (by omega), List.take_succ]
    simp only [List.map_cons, List.map_nil]
    congr 1
    rw [List.get?_eq_get hn, ← List.get?_eq_getElem?, List.get?_eq_get hn]
    rfl

/-- The row-major readout reassembles the flat list chunk by chunk. -/
theorem readChunks (α : Type) (d : Nat) : ∀ (rows : Nat) (l : List (Option α)),
    l.length = rows * d →
    (List.range rows).flatMap (fun r => (List.range d).map (fun c =>
      (l.get? (c + r * d)).getD none)) = l := by
  intro rows
  induction rows with
  | zero =>
    intro l h
    rw [Nat.zero_mul] at h
    rw [List.eq_nil_of_length_eq_zero h]
    rfl
  | succ n ih =>
    intro l h
    rw [List.range_succ_eq_map, List.cons_flatMap]
    have hfirst : (List.range d).map (fun c => (l.get? (c + 0 * d)).getD none) =
        l.take d := by
      simp only [Nat.zero_mul, Nat.add_zero]
      exact readRowPrefix α d l (by rw [h, Nat.succ_mul]; omega)
    rw [hfirst, List.flatMap_map]
    have hfun : (fun a => (List.range d).map fun c =>
          (l.get? (c + a.succ * d)).getD none)
        = (fun r => (List.range d).map fun c =>
          ((l.drop d).get? (c + r * d)).getD none) := by
      funext r
      apply List.map_congr_left
      intro c _
      rw [List.get?_drop]
      have harith : c + r.succ * d = d + (c + r * d) := by
        rw [Nat.succ_mul]; omega
      rw [harith]
    rw [hfun, ih (l.drop d) (by rw [List.length_drop, h, Nat.succ_mul]; omega)]
    exact List.take_append_drop d l

/-- C8: a board built by `from_list` from a flat row-major list of `D²`
values reproduces exactly that list when its cells are read back in
row-major iteration order. -/
theorem from_list_roundtrip (α : Type) (lst : List (Option α))
    (h : Nat.sqrt lst.length * Nat.sqrt lst.length = lst.length) :
    SquareBoard.from_list lst =
      .ok { dimension := Nat.sqrt lst.length, _board := lst } ∧
    SquareBoard.iterList { dimension := Nat.sqrt lst.length, _board := lst } = lst := by
  constructor
  · simp only [SquareBoard.from_list]
    rw [if_neg (by omega)]
  · unfold SquareBoard.iterList
    exact readChunks α (Nat.sqrt lst.length) (Nat.sqrt lst.length) lst (by omega)

/-- Witness for `from_list_roundtrip` at a concrete dimension-2 list. -/
theorem from_list_roundtrip_witness :
    SquareBoard.from_list rtList2 =
      .ok { dimension := Nat.sqrt rtList2.length, _board := rtList2 } ∧
    SquareBoard.iterList { dimension := Nat.sqrt rtList2.length, _board := rtList2 } =
      rtList2 :=
  from_list_roundtrip Val rtList2
    (by rw [show rtList2.length = 2 * 2 from rfl, Nat.sqrt_eq])

/-- Pointwise sublists bound the total possibility size. -/
theorem sumLens_le_of_forall2 {ls' ls : List (List Pos)}
    (h : List.Forall₂ (fun a b => a.Sublist b) ls' ls) :
    sumLens ls' ≤ sumLens ls := by
  induction h with
  | nil => exact Nat.le_refl _
  | cons hab htail ih =>
    unfold sumLens at *
    simp only [List.map_cons, List.sum_cons]
    exact Nat.add_le_add hab.length_le ih

/-- Reflexivity of pointwise sublists. -/
theorem forall2_sublist_refl (ls : List (List Pos)) :
    List.Forall₂ (fun a b => a.Sublist b) ls ls := by
  induction ls with
  | nil => exact List.Forall₂.nil
  | cons a t ih => exact List.Forall₂.cons (List.Sublist.refl a) ih

/-- Setting an index to a sublist of its current content is a pointwise
sublist. -/
theorem forall2_sublist_set : ∀ {ls : List (List Pos)} {k : Nat} {l l' : List Pos},
    ls.get? k = some l → l'.Sublist l →
    List.Forall₂ (fun a b => a.Sublist b) (ls.set k l') ls := by
  intro ls
  induction ls with
  | nil => intro k l l' hget; cases hget
  | cons a t ih =>
    intro k l l' hget hsub
    cases k with
    | zero =>
      cases hget
      exact List.Forall₂.cons hsub (forall2_sublist_refl t)
    | succ k =>
      exact List.Forall₂.cons (List.Sublist.refl a) (ih hget hsub)

/-- Filtering every entry is a pointwise sublist. -/
theorem forall2_sublist_map_filter (ls : List (List Pos)) (q : Pos → Bool) :
    List.Forall₂ (fun a b => a.Sublist b) (ls.map (fun t => t.filter q)) ls := by
  induction ls with
  | nil => exact List.Forall₂.nil
  | cons a t ih => exact List.Forall₂.cons (List.filter_sublist a) ih

/-- Transitivity of pointwise sublists. -/
theorem forall2_sublist_trans : ∀ {a b c : List (List Pos)},
    List.Forall₂ (fun x y => x.Sublist y) a b →
    List.Forall₂ (fun x y => x.Sublist y) b c →
    List.Forall₂ (fun x y => x.Sublist y) a c := by
  intro a b c h1
  induction h1 generalizing c with
  | nil =>
    intro h2
    cases h2
    exact List.Forall₂.nil
  | cons hab htail ih =>
    intro h2
    cases h2 with
    | cons hbc htail2 => exact List.Forall₂.cons (hab.trans hbc) (ih htail2)

/-- A strict shrink at one index gives a strict total shrink. -/
theorem sumLens_lt_of_forall2 {ls' ls : List (List Pos)}
    (h : List.Forall₂ (fun a b => a.Sublist b) ls' ls) :
    ∀ {k : Nat} {a b : List Pos}, ls'.get? k = some a → ls.get? k = some b →
      a.length < b.length → sumLens ls' < sumLens ls := by
  induction h with
  | nil =>
    intro k a b ha
    cases ha
  | cons hab htail ih =>
    intro k a b ha hb hlt
    cases k with
    | zero =>
      cases ha
      cases hb
      unfold sumLens
      simp only [List.map_cons, List.sum_cons]
      have := sumLens_le_of_forall2 htail
      unfold sumLens at this
      omega
    | succ k =>
      unfold sumLens
      simp only [List.map_cons, List.sum_cons]
      have := @ih k a b ha hb hlt
      unfold sumLens at this
      have hh := hab.length_le
      omega

/-- Adding to the update set grows it by at most one. -/
theorem updAdd_length_le (u : List Upd) (x : Upd) :
    (updAdd u x).length ≤ u.length + 1 := by
  unfold updAdd
  split
  · omega
  · rw [List.length_append]
    exact Nat.le_refl _

/-- Inversion of a successful possibility-set read. -/
theorem possGet_ok_inv {s : SolverSt} {v : Val} {l : List Pos}
    (h : possGet s v = .ok l) :
    ∃ k, vidx v = some k ∧ s.poss.get? k = some l := by
  unfold possGet at h
  split at h
  · cases h
  next k hk =>
    split at h
    · cases h
    next l' hl =>
      cases h
      exact ⟨k, hk, hl⟩

/-- `update_cell` strictly shrinks the total possibility size (the
committed position was a candidate and is discarded from every set) and
never grows the drain measure (the one enqueued update is paid for by the
removed candidate). -/
theorem update_cell_shrinks {s s' : SolverSt} {row col : Nat} {v : Val} {l : List Pos}
    (hg : possGet s v = .ok l) (hmem : ((row, col) : Pos) ∈ l)
    (h : update_cell s row col v = .ok s') :
    totalPoss s' < totalPoss s ∧ stMeasure s' ≤ stMeasure s := by
  obtain ⟨k, hk, hl⟩ := possGet_ok_inv hg
  unfold update_cell at h
  split at h
  · cases h
  next s1 h1 =>
    split at h
    · cases h
    next s2 h2 =>
      split at h
      · cases h
      next s3 h3 =>
        split at h
        · cases h
        next b hb =>
          cases h
          unfold clear_row at h1
          unfold clear_col at h2
          unfold clear_subgrid at h3
          obtain ⟨k1, l1, hk1, hl1, he1⟩ := clearGroup_ok_inv h1
          obtain ⟨k2, l2, hk2, hl2, he2⟩ := clearGroup_ok_inv h2
          obtain ⟨k3, l3, hk3, hl3, he3⟩ := clearGroup_ok_inv h3
          have ek1 : k1 = k := Option.some_inj.mp (hk1.symm.trans hk)
          have ek2 : k2 = k := Option.some_inj.mp (hk2.symm.trans hk)
          have ek3 : k3 = k := Option.some_inj.mp (hk3.symm.trans hk)
          rw [ek1] at hl1 he1
          rw [ek2] at hl2 he2
          rw [ek3] at hl3 he3
          have el1 : l1 = l := Option.some_inj.mp (hl1.symm.trans hl)
          rw [el1] at he1
          -- name the three filters
          set f1 : Pos → Bool :=
            (fun p => !(decide (p ∈ row_positions row))) with hf1
          set f2 : Pos → Bool :=
            (fun p => !(decide (p ∈ col_positions col))) with hf2
          set f3 : Pos → Bool :=
            (fun p => !(decide (p ∈ subgrid_positions row col))) with hf3
          set f4 : Pos → Bool := (fun p => !(decide (p = (row, col)))) with hf4
          -- compute the nested possibility lists
          have hs1poss : s1.poss = s.poss.set k (l.filter f1) := by rw [he1]
          have hget1 : s1.poss.get? k = some (l.filter f1) := by
            rw [hs1poss, List.get?_set_eq, hl]
            rfl
          have el2 : l2 = l.filter f1 := Option.some_inj.mp (hl2.symm.trans hget1)
          rw [el2] at he2
          have hs2poss : s2.poss = s.poss.set k ((l.filter f1).filter f2) := by
            rw [he2, hs1poss, List.set_set]
          have hget2 : s2.poss.get? k = some ((l.filter f1).filter f2) := by
            rw [hs2poss, List.get?_set_eq, hl]
            rfl
          have el3 : l3 = (l.filter f1).filter f2 :=
            Option.some_inj.mp (hl3.symm.trans hget2)
          rw [el3] at he3
          have hs3poss : s3.poss =
              s.poss.set k (((l.filter f1).filter f2).filter f3) := by
            rw [he3, hs2poss, List.set_set]
          have hs3upd : s3.updates = s.updates := by
            rw [he3, he2, he1]
          -- the final possibility lists are pointwise sublists of the originals
          have hchain : (((l.filter f1).filter f2).filter f3).Sublist l :=
            ((List.filter_sublist _).trans (List.filter_sublist _)).trans
              (List.filter_sublist l)
          have hfa : List.Forall₂ (fun x y => x.Sublist y)
              (s3.poss.map (fun ps => ps.filter f4)) s.poss :=
            forall2_sublist_trans
              (forall2_sublist_map_filter s3.poss f4)
              (hs3poss ▸ forall2_sublist_set hl hchain)
          -- and strictly shorter at index k
          have hgetfin : (s3.poss.map (fun ps => ps.filter f4)).get? k =
              some ((((l.filter f1).filter f2).filter f3).filter f4) := by
            rw [List.get?_map, hs3poss, List.get?_set_eq, hl]
            rfl
          have hnotin : ((row, col) : Pos) ∉
              ((((l.filter f1).filter f2).filter f3).filter f4) := by
            intro hin
            have hdec := (List.mem_filter.mp hin).2
            rw [hf4] at hdec
            simp at hdec
          have hsubfin : ((((l.filter f1).filter f2).filter f3).filter f4).Sublist l :=
            (List.filter_sublist _).trans hchain
          have hltk : ((((l.filter f1).filter f2).filter f3).filter f4).length <
              l.length := by
            have hle := hsubfin.length_le
            rcases Nat.lt_or_ge
              (((((l.filter f1).filter f2).filter f3).filter f4).length) l.length with
              hlt | hge
            · exact hlt
            · exfalso
              have heq := hsubfin.eq_of_length (by omega)
              rw [heq] at hnotin
              exact hnotin hmem
          have htp : sumLens (s3.poss.map (fun ps => ps.filter f4)) < sumLens s.poss :=
            sumLens_lt_of_forall2 hfa hgetfin hl hltk
          have hupd : (updAdd s3.updates (v, (row, col))).length ≤
              s.updates.length + 1 := by
            rw [hs3upd]
            exact updAdd_length_le s.updates (v, (row, col))
          refine ⟨htp, ?_⟩
          show sumLens (s3.poss.map (fun ps => ps.filter f4)) +
            (updAdd s3.updates (v, (row, col))).length ≤ stMeasure s
          unfold stMeasure totalPoss
          omega

/-- `Prog` is reflexive. -/
theorem Prog_refl (s : SolverSt) : Prog s s :=
  ⟨Nat.le_refl _, Nat.le_refl _, Or.inl rfl⟩

/-- `Prog` is transitive. -/
theorem Prog_trans {a b c : SolverSt} (h1 : Prog a b) (h2 : Prog b c) : Prog a c := by
  refine ⟨h2.1.trans h1.1, h2.2.1.trans h1.2.1, ?_⟩
  rcases h2.2.2 with heq2 | hlt2
  · rcases h1.2.2 with heq1 | hlt1
    · exact Or.inl (heq2.trans heq1)
    · exact Or.inr (heq2 ▸ hlt1)
  · exact Or.inr (Nat.lt_of_lt_of_le hlt2 h1.1)

/-- Every normal return of `checkGroup` makes progress: it either does
nothing or commits a cell through `update_cell`, strictly shrinking the
possibility total. -/
theorem checkGroup_prog {s s' : SolverSt} {g : List Pos} {v : Val}
    (h : checkGroup s g v = .ok s') : Prog s s' := by
  unfold checkGroup at h
  split at h
  · cases h
  next l hpg =>
    split at h
    next p heqf =>
      have hpfilter : p ∈ g.filter (fun q => decide (q ∈ l)) := by
        rw [heqf]
        exact List.mem_singleton.mpr rfl
      have hpmem : p ∈ l := of_decide_eq_true (List.mem_filter.mp hpfilter).2
      have hmem' : ((p.1, p.2) : Pos) ∈ l := by
        rw [Prod.mk.eta]
        exact hpmem
      have hres := update_cell_shrinks hpg hmem' h
      exact ⟨Nat.le_of_lt hres.1, hres.2, Or.inr hres.1⟩
    next =>
      cases h
      exact Prog_refl s

/-- A value in `possible_values` points back to a possibility set that
contains the position. -/
theorem mem_possible_values {s : SolverSt} {row col : Nat} {v : Val}
    (h : v ∈ possible_values s row col) :
    ∃ i ps, s.poss.get? i = some ps ∧ ((row, col) : Pos) ∈ ps ∧ v = i + 1 := by
  unfold possible_values at h
  rw [List.mem_filterMap] at h
  obtain ⟨ip, hip, hif⟩ := h
  split at hif
  next hmem =>
    cases hif
    exact ⟨ip.1, ip.2, List.mem_enum_iff_get?.mp hip, hmem, rfl⟩
  next => cases hif

/-- The Python index `possibilities[(i+1) - 1]` resolves to `i` exactly for
`i < 9`. -/
theorem vidx_succ {i k : Nat} (h : vidx (i + 1) = some k) : k = i ∧ i < 9 := by
  unfold vidx pyIndex at h
  rw [if_pos (by push_cast; omega)] at h
  split at h
  next hlt =>
    cases h
    constructor
    · omega
    · omega
  next => cases h

/-- Every normal return of `check_cell` makes progress. -/
theorem check_cell_prog {s s' : SolverSt} {row col : Nat}
    (h : check_cell s row col = .ok s') : Prog s s' := by
  unfold check_cell at h
  split at h
  · split at h
    · cases h
      exact Prog_refl s
    · cases h
  next v hpv =>
    have hv : v ∈ possible_values s row col := by
      rw [hpv]
      exact List.mem_singleton.mpr rfl
    obtain ⟨i, ps, hget, hmem, hvi⟩ := mem_possible_values hv
    -- if the index were invalid, update_cell would have raised
    cases hvx : vidx v with
    | none =>
      exfalso
      unfold update_cell clear_row clearGroup at h
      rw [hvx] at h
      cases h
    | some k =>
      have hk := vidx_succ (hvi ▸ hvx)
      have hg : possGet s v = .ok ps := by
        unfold possGet
        simp only [hvx, hk.1, hget]
      have hres := update_cell_shrinks hg hmem h
      exact ⟨Nat.le_of_lt hres.1, hres.2, Or.inr hres.1⟩
  next =>
    cases h
    exact Prog_refl s

/-- The row/column re-check loop makes progress. -/
theorem rcChecksGo_prog {v : Val} : ∀ {is : List Nat} {s s' : SolverSt},
    rcChecksGo v is s = .ok s' → Prog s s' := by
  intro is
  induction is with
  | nil =>
    intro s s' h
    cases h
    exact Prog_refl s
  | cons i is ih =>
    intro s s' h
    unfold rcChecksGo at h
    split at h
    · cases h
    next s1 h1 =>
      split at h
      · cases h
      next s2 h2 =>
        unfold check_row at h1
        unfold check_col at h2
        exact Prog_trans (Prog_trans (checkGroup_prog h1) (checkGroup_prog h2)) (ih h)

/-- The subgrid re-check loop makes progress. -/
theorem sgChecksGo_prog {v : Val} {row col : Nat} : ∀ {is : List Nat} {s s' : SolverSt},
    sgChecksGo v row col is s = .ok s' → Prog s s' := by
  intro is
  induction is with
  | nil =>
    intro s s' h
    cases h
    exact Prog_refl s
  | cons i is ih =>
    intro s s' h
    unfold sgChecksGo at h
    split at h
    · cases h
    next s1 h1 =>
      split at h
      · cases h
      next s2 h2 =>
        unfold check_subgrid at h1 h2
        exact Prog_trans (Prog_trans (checkGroup_prog h1) (checkGroup_prog h2)) (ih h)

/-- The whole post-pop re-check pass makes progress. -/
theorem checksAfterPop_prog {s s' : SolverSt} {row col : Nat} {stale : Option Val}
    (h : checksAfterPop s row col stale = .ok s') : Prog s s' := by
  unfold checksAfterPop at h
  split at h
  · cases h
  next v =>
    split at h
    · cases h
    next s1 h1 => exact Prog_trans (rcChecksGo_prog h1) (sgChecksGo_prog h)

/-- The naked-single sweep makes progress. -/
theorem sweepGo_prog : ∀ {ps : List Pos} {s : SolverSt} {last : Option Val}
    {s' : SolverSt} {last' : Option Val},
    sweepGo ps s last = .ok (s', last') → Prog s s' := by
  intro ps
  induction ps with
  | nil =>
    intro s last s' last' h
    cases h
    exact Prog_refl s
  | cons p ps ih =>
    intro s last s' last' h
    unfold sweepGo at h
    simp only [] at h
    split at h
    · exact ih h
    · split at h
      · cases h
      next s1 h1 => exact Prog_trans (check_cell_prog h1) (ih h)

/-- The inner drain loop cannot run out of fuel exceeding the measure:
every pop strictly decreases `stMeasure`. -/
theorem drainF_isSome {stale : Option Val} : ∀ {n : Nat} {s : SolverSt},
    stMeasure s < n → (drainF stale n s).isSome = true := by
  intro n
  induction n with
  | zero =>
    intro s h
    exact absurd h (Nat.not_lt_zero _)
  | succ n ih =>
    intro s h
    unfold drainF
    split
    · rfl
    next v0 row col rest hu =>
      split
      · rfl
      next s1 h1 =>
        have hm : stMeasure { s with updates := rest } + 1 = stMeasure s := by
          unfold stMeasure totalPoss
          rw [hu]
          simp only [List.length_cons]
          omega
        have hp := checksAfterPop_prog h1
        exact ih (by have := hp.2.1; omega)

/-- A successful drain empties the update set and never grows the
possibility total. -/
theorem drainF_ok_inv {stale : Option Val} : ∀ {n : Nat} {s s' : SolverSt},
    drainF stale n s = some (.ok s') →
    totalPoss s' ≤ totalPoss s ∧ s'.updates = [] := by
  intro n
  induction n with
  | zero =>
    intro s s' h
    unfold drainF at h
    split at h
    next he =>
      cases h
      exact ⟨Nat.le_refl _, List.isEmpty_iff.mp he⟩
    · cases h
  | succ n ih =>
    intro s s' h
    unfold drainF at h
    split at h
    next hu =>
      cases h
      exact ⟨Nat.le_refl _, hu⟩
    next v0 row col rest hu =>
      split at h
      · cases h
      next s1 h1 =>
        have hp := checksAfterPop_prog h1
        have hrec := ih h
        refine ⟨?_, hrec.2⟩
        have h1tp : totalPoss s1 ≤ totalPoss { s with updates := rest } := hp.1
        have heq : totalPoss { s with updates := rest } = totalPoss s := rfl
        omega

/-- With no pending updates the outer loop returns immediately, for any
fuel. -/
theorem solveLoopF_empty {n : Nat} {stale : Option Val} {s : SolverSt}
    (h : s.updates.isEmpty = true) : (solveLoopF n stale s).isSome = true := by
  cases n with
  | zero =>
    unfold solveLoopF
    rw [if_pos h]
    rfl
  | succ n =>
    unfold solveLoopF
    rw [if_pos h]
    rfl

/-- The outer loop cannot run out of fuel exceeding the possibility total:
every continued iteration strictly decreases it. -/
theorem solveLoopF_isSome : ∀ {n : Nat} {stale : Option Val} {s : SolverSt},
    totalPoss s < n → (solveLoopF n stale s).isSome = true := by
  intro n
  induction n with
  | zero =>
    intro stale s h
    exact absurd h (Nat.not_lt_zero _)
  | succ n ih =>
    intro stale s h
    unfold solveLoopF
    by_cases he : s.updates.isEmpty = true
    · rw [if_pos he]
      rfl
    · rw [if_neg he]
      have hd := @drainF_isSome stale (stMeasure s + 1) s (by omega)
      cases hdd : drainF stale (stMeasure s + 1) s with
      | none =>
        rw [hdd] at hd
        cases hd
      | some r =>
        cases r with
        | error e => rfl
        | ok s1 =>
          obtain ⟨hle, hupd1⟩ := drainF_ok_inv hdd
          show (match sweepGo allPositions s1 none with
            | Except.error e => some (Except.error e)
            | Except.ok (s2, last) => solveLoopF n last s2).isSome = true
          cases hsw : sweepGo allPositions s1 none with
          | error e => rfl
          | ok pr =>
            obtain ⟨s2, last⟩ := pr
            show (solveLoopF n last s2).isSome = true
            have hp := sweepGo_prog hsw
            by_cases he2 : s2.updates.isEmpty = true
            · exact solveLoopF_empty he2
            · rcases hp.2.2 with heq | hlt
              · exact absurd (by rw [heq, hupd1]; rfl) he2
              · exact ih (by have := hp.1; omega)

/-- C6: `solve()` terminates on every puzzle input: after seeding, the
propagation loop runs within the fuel bound `totalPoss + 1` for the outer
loop and `stMeasure + 1` for each drain — it never runs forever, whether
the puzzle is solved, left partial, or an exception is raised. -/
theorem solve_always_terminates (b : BoardCells) : (solveRun b).isSome = true := by
  unfold solveRun
  cases hs : seedGo allPositions (initSolver b) with
  | error e => rfl
  | ok s1 => exact solveLoopF_isSome (by omega)

set_option maxRecDepth 1000000
set_option maxHeartbeats 4000000

/-- C1: building `easy_sudoku` from its 35 givens succeeds, `solve()`
returns without raising any exception, and the final board is completely
solved: every cell is filled and every row, column and 3x3 subgrid
contains each of the values `1..9` exactly once.  (The embedding fixes one
concrete pop order for the Python update `set`; see the module header.) -/
theorem easy_sudoku_solve_solves : easySolveChecks = true := by decide
